import Mathlib

/-!
# The lint configuration of `eslint.config.mjs`

The module's default export is `withNuxt(first, second)`, where `first` is an
object literal with a single `rules` field and `second` an object literal with a
single `ignores` field.  Two entries of `rules` read `process.env.NODE_ENV`.

The embedding keeps the literal as data: a JavaScript value is a string, an array
or an object (an ordered list of key/value properties), and the value of
`process.env.NODE_ENV` is an `Option String` (`none` when the variable is unset).
-/

namespace EslintConfig

/-- The JavaScript values that occur in the configuration literal. -/
inductive JsValue where
  | str : String → JsValue
  | arr : List JsValue → JsValue
  | obj : List (String × JsValue) → JsValue

/-- Property read on an object literal whose properties are listed in source
order: a later property with the same key replaces an earlier one. -/
def getProp (k : String) : List (String × JsValue) → Option JsValue
  | [] => none
  | (k', v) :: rest =>
    match getProp k rest with
    | some w => some w
    | none => if k' = k then some v else none

/-- The property keys of an object literal, in source order. -/
def keys (props : List (String × JsValue)) : List String :=
  props.map Prod.fst

/-- The comparison `process.env.NODE_ENV === 'production'`. -/
def isProduction (nodeEnv : Option String) : Bool :=
  decide (nodeEnv = some "production")

/-- The `rules` object literal (lines 6-44), for a given value of
`process.env.NODE_ENV`. -/
def rules (nodeEnv : Option String) : List (String × JsValue) :=
  [ ("vue/multi-word-component-names", .str "off"),
    ("vue/no-v-html", .str "warn"),
    ("vue/require-default-prop", .str "off"),
    ("vue/no-multiple-template-root", .str "off"),
    ("vue/html-self-closing",
      .arr [
        .str "error",
        .obj [
          ("html", .obj [
            ("void", .str "always"),
            ("normal", .str "always"),
            ("component", .str "always") ]),
          ("svg", .str "always"),
          ("math", .str "always") ] ]),
    ("@typescript-eslint/no-unused-vars",
      .arr [
        .str "error",
        .obj [
          ("argsIgnorePattern", .str "^_"),
          ("varsIgnorePattern", .str "^_") ] ]),
    ("@typescript-eslint/no-explicit-any", .str "warn"),
    ("@typescript-eslint/explicit-module-boundary-types", .str "off"),
    ("no-console", if isProduction nodeEnv then .str "warn" else .str "off"),
    ("no-debugger", if isProduction nodeEnv then .str "error" else .str "warn"),
    ("prefer-const", .str "error"),
    ("no-var", .str "error"),
    ("@stylistic/operator-linebreak", .arr [.str "error", .str "after"]) ]

/-- The `ignores` array literal (lines 47-55). -/
def ignores : List JsValue :=
  [ .str "node_modules/",
    .str ".nuxt/",
    .str "dist/",
    .str ".output/",
    .str "coverage/",
    .str "*.min.js",
    .str "prisma/migrations/" ]

/-- The two object literals passed to `withNuxt`, in argument order. -/
def configArgs (nodeEnv : Option String) : List JsValue :=
  [ .obj [("rules", .obj (rules nodeEnv))],
    .obj [("ignores", .arr ignores)] ]

/-- The default export: the imported `withNuxt` applied to the two literals.
`withNuxt` comes from a generated file outside the repository and is taken as a
parameter. -/
def defaultExport {α : Type} (withNuxt : List JsValue → α) (nodeEnv : Option String) : α :=
  withNuxt (configArgs nodeEnv)

/-- The string carried by a value, if the value is a string. -/
def JsValue.asString? : JsValue → Option String
  | .str s => some s
  | _ => none

/-- The properties of a value, if the value is an object. -/
def JsValue.asObject? : JsValue → Option (List (String × JsValue))
  | .obj ps => some ps
  | _ => none

/-- The `rules` table read back from the first argument of `withNuxt`. -/
def rulesOf (args : List JsValue) : Option (List (String × JsValue)) :=
  match args with
  | .obj ps :: _ => (getProp "rules" ps).bind JsValue.asObject?
  | _ => none

/-- The `ignores` list read back from the second argument of `withNuxt`. -/
def ignoresOf (args : List JsValue) : Option (List JsValue) :=
  match args with
  | _ :: .obj ps :: _ =>
    match getProp "ignores" ps with
    | some (.arr xs) => some xs
    | _ => none
  | _ => none

/-! ## Reading a rule entry

A rule entry is a severity string, or a tuple (array) whose first element is a
severity string and whose remaining elements are options. -/

/-- The three severity levels. -/
def isSeverity (s : String) : Bool :=
  s == "off" || s == "warn" || s == "error"

/-- The leading string of a rule entry: the entry itself when it is a string,
the first element when it is a tuple starting with a string. -/
def entrySeverity : JsValue → Option String
  | .str s => some s
  | .arr (.str s :: _) => some s
  | _ => none

/-- The options of a tuple entry: everything after its first element. -/
def entryOptions : JsValue → List JsValue
  | .arr (_ :: opts) => opts
  | _ => []

/-- An entry is a tuple when it is a non-empty array. -/
def isTuple : JsValue → Bool
  | .arr (_ :: _) => true
  | _ => false

/-- The severity configured for rule `k`, if the table has an entry for `k` that
is a string or a tuple starting with a string. -/
def severityOf (nodeEnv : Option String) (k : String) : Option String :=
  (getProp k (rules nodeEnv)).bind entrySeverity

/-- The keys of the table whose entry has severity `s`, in source order. -/
def keysWithSeverity (s : String) (props : List (String × JsValue)) : List String :=
  keys (props.filter fun kv => entrySeverity kv.2 == some s)

/-- A well-formed rule entry: one of the three severities, or a tuple whose
first element is one of the three severities. -/
def isRuleEntry : JsValue → Bool
  | .str s => isSeverity s
  | .arr (.str s :: _) => isSeverity s
  | _ => false

/-- The categories of ignored paths that the specification documents. -/
inductive IgnoreCategory where
  | dependencyDirectory
  | frameworkBuildCache
  | distributionOutput
  | coverageReport
  | minifiedScripts
  | databaseMigrations
  deriving DecidableEq, Repr

/-- The documented category of an ignore pattern, following the specification's
list of ignored paths; `none` for a pattern outside the documented set. -/
def documentedCategory (pattern : String) : Option IgnoreCategory :=
  if pattern = "node_modules/" then some .dependencyDirectory
  else if pattern = ".nuxt/" then some .frameworkBuildCache
  else if pattern = "dist/" then some .distributionOutput
  else if pattern = ".output/" then some .distributionOutput
  else if pattern = "coverage/" then some .coverageReport
  else if pattern = "*.min.js" then some .minifiedScripts
  else if pattern = "prisma/migrations/" then some .databaseMigrations
  else none

/-- The option keys of the specification's table of recognized configuration
options, in the order of the table. -/
def specOptionKeys : List String :=
  [ "vue/multi-word-component-names",
    "vue/no-v-html",
    "vue/require-default-prop",
    "vue/no-multiple-template-root",
    "vue/html-self-closing",
    "@typescript-eslint/no-unused-vars",
    "@typescript-eslint/no-explicit-any",
    "@typescript-eslint/explicit-module-boundary-types",
    "no-console",
    "no-debugger",
    "prefer-const",
    "no-var",
    "@stylistic/operator-linebreak" ]

/-- Read a nested property along a path of keys. -/
def getPath : List String → JsValue → Option JsValue
  | [], v => some v
  | k :: ks, .obj ps => (getProp k ps).bind (getPath ks)
  | _ :: _, _ => none

/-- The five element categories of `vue/html-self-closing`, as paths into its
options record: `html.void`, `html.normal`, `html.component`, `svg`, `math`. -/
def selfClosingCategories : List (List String) :=
  [ ["html", "void"], ["html", "normal"], ["html", "component"], ["svg"], ["math"] ]

/-! ## Basic facts about the table -/

theorem isProduction_of_ne {nodeEnv : Option String} (h : nodeEnv ≠ some "production") :
    isProduction nodeEnv = false := by
  simp [isProduction, h]

/-- The first argument of `withNuxt` carries the rules table unchanged. -/
theorem rulesOf_configArgs (nodeEnv : Option String) :
    rulesOf (configArgs nodeEnv) = some (rules nodeEnv) := rfl

theorem rules_of_ne {nodeEnv : Option String} (h : nodeEnv ≠ some "production") :
    rules nodeEnv = rules none := by
  have h1 : isProduction nodeEnv = false := isProduction_of_ne h
  have h2 : isProduction none = false := rfl
  simp only [rules, h1, h2]

theorem keys_rules (nodeEnv : Option String) : keys (rules nodeEnv) = specOptionKeys := rfl

theorem specOptionKeys_nodup : specOptionKeys.Nodup := by
  decide

theorem getProp_mem {k : String} {v : JsValue} :
    ∀ {props : List (String × JsValue)}, getProp k props = some v → (k, v) ∈ props
  | [], h => by simp [getProp] at h
  | (k', v') :: rest, h => by
    unfold getProp at h
    cases hr : getProp k rest with
    | some w =>
      rw [hr] at h
      simp only [Option.some.injEq] at h
      subst h
      exact List.mem_cons_of_mem _ (getProp_mem hr)
    | none =>
      rw [hr] at h
      by_cases hk : k' = k
      · simp only [hk, if_true, Option.some.injEq] at h
        subst h
        subst hk
        exact List.mem_cons_self _ _
      · simp [hk] at h

theorem getProp_eq_none_of_not_mem {k : String} :
    ∀ {props : List (String × JsValue)}, k ∉ keys props → getProp k props = none
  | [], _ => rfl
  | (k', v') :: rest, h => by
    have h1 : k' ≠ k := fun e => h (by simp [keys, e])
    have h2 : k ∉ keys rest := fun e => h (by
      simp only [keys, List.map_cons, List.mem_cons]
      exact Or.inr e)
    simp [getProp, getProp_eq_none_of_not_mem h2, h1]

theorem getProp_of_mem {k : String} {v : JsValue} :
    ∀ {props : List (String × JsValue)}, (keys props).Nodup → (k, v) ∈ props →
      getProp k props = some v
  | [], _, h => by simp at h
  | (k', v') :: rest, hnd, h => by
    have hnd2 : k' ∉ keys rest ∧ (keys rest).Nodup := by
      simpa [keys] using hnd
    rcases List.mem_cons.1 h with e | hm
    · cases e
      simp [getProp, getProp_eq_none_of_not_mem hnd2.1]
    · simp [getProp, getProp_of_mem hnd2.2 hm]

theorem getProp_eq_some_iff {k : String} {v : JsValue} {props : List (String × JsValue)}
    (hnd : (keys props).Nodup) : getProp k props = some v ↔ (k, v) ∈ props :=
  ⟨getProp_mem, getProp_of_mem hnd⟩

theorem mem_keysWithSeverity {s k : String} {props : List (String × JsValue)} :
    k ∈ keysWithSeverity s props ↔ ∃ v, (k, v) ∈ props ∧ entrySeverity v = some s := by
  simp [keysWithSeverity, keys, List.mem_map, List.mem_filter]

theorem severityOf_eq_some_iff (nodeEnv : Option String) (k s : String) :
    severityOf nodeEnv k = some s ↔ k ∈ keysWithSeverity s (rules nodeEnv) := by
  have hnd : (keys (rules nodeEnv)).Nodup := by
    rw [keys_rules]; exact specOptionKeys_nodup
  rw [mem_keysWithSeverity, severityOf]
  constructor
  · intro h
    cases hg : getProp k (rules nodeEnv) with
    | none => simp [hg] at h
    | some v =>
      rw [hg] at h
      exact ⟨v, getProp_mem hg, h⟩
  · rintro ⟨v, hm, hs⟩
    rw [getProp_of_mem hnd hm]
    exact hs

/-- C1: for every value of NODE_ENV (unset included) the severity configured for
`no-console` is `warn` when NODE_ENV is exactly `production` and `off` otherwise. -/
theorem no_console_severity (nodeEnv : Option String) :
    getProp "no-console" (rules nodeEnv)
        = some (.str (if nodeEnv = some "production" then "warn" else "off")) ∧
      severityOf nodeEnv "no-console"
        = some (if nodeEnv = some "production" then "warn" else "off") := by
  by_cases h : nodeEnv = some "production"
  · subst h
    exact ⟨rfl, rfl⟩
  · have hp := isProduction_of_ne h
    simp [severityOf, rules, getProp, hp, h, entrySeverity]

/-- C2: for every value of NODE_ENV (unset included) the severity configured for
`no-debugger` is `error` when NODE_ENV is exactly `production` and `warn`
otherwise; it is never `off`. -/
theorem no_debugger_severity (nodeEnv : Option String) :
    getProp "no-debugger" (rules nodeEnv)
        = some (.str (if nodeEnv = some "production" then "error" else "warn")) ∧
      severityOf nodeEnv "no-debugger"
        = some (if nodeEnv = some "production" then "error" else "warn") ∧
      severityOf nodeEnv "no-debugger" ≠ some "off" := by
  by_cases h : nodeEnv = some "production"
  · subst h
    exact ⟨rfl, rfl, by decide⟩
  · rw [severityOf, rules_of_ne h]
    simp only [h, if_false]
    exact ⟨rfl, rfl, by decide⟩

/-- C3: for every value of NODE_ENV the ignore list of the second configuration
object is exactly the ordered list `node_modules/`, `.nuxt/`, `dist/`,
`.output/`, `coverage/`, `*.min.js`, `prisma/migrations/`; every element is a
string and every element falls in one of the documented categories. -/
theorem ignores_exact (nodeEnv : Option String) :
    ignoresOf (configArgs nodeEnv) = some ignores ∧
      ignores.map JsValue.asString?
        = [ some "node_modules/", some ".nuxt/", some "dist/", some ".output/",
            some "coverage/", some "*.min.js", some "prisma/migrations/" ] ∧
      ignores.map (fun v => v.asString?.bind documentedCategory)
        = [ some .dependencyDirectory, some .frameworkBuildCache,
            some .distributionOutput, some .distributionOutput,
            some .coverageReport, some .minifiedScripts,
            some .databaseMigrations ] := by
  refine ⟨rfl, rfl, ?_⟩
  decide

/-- C4: for every value of NODE_ENV, every entry of the rules table is one of the
three severities `off`, `warn`, `error`, or a tuple whose first element is one
of them.  (By `getProp_mem` every value read from the table is such an entry.) -/
theorem rule_entries_wellformed (nodeEnv : Option String) (k : String) (v : JsValue)
    (h : (k, v) ∈ rules nodeEnv) : isRuleEntry v = true := by
  have key : ∀ env : Option String, env = none ∨ env = some "production" →
      ∀ kv ∈ rules env, isRuleEntry kv.2 = true := by
    intro env henv
    rcases henv with e | e <;> subst e <;> decide
  by_cases hp : nodeEnv = some "production"
  · exact key nodeEnv (Or.inr hp) (k, v) h
  · rw [rules_of_ne hp] at h
    exact key none (Or.inl rfl) (k, v) h

/-- Witness for C4: the entry of `no-var` when NODE_ENV is unset. -/
theorem rule_entries_wellformed_witness :
    ("no-var", JsValue.str "error") ∈ rules none ∧
      isRuleEntry (JsValue.str "error") = true :=
  ⟨by simp [rules], rule_entries_wellformed none "no-var" (.str "error") (by simp [rules])⟩

/-- C5: the rules whose severity is `error` are exactly `vue/html-self-closing`,
`@typescript-eslint/no-unused-vars`, `prefer-const`, `no-var` and
`@stylistic/operator-linebreak` when NODE_ENV is not `production`, and those
plus `no-debugger` when it is; `vue/no-v-html` and
`@typescript-eslint/no-explicit-any` are `warn` for every NODE_ENV. -/
theorem error_rules_exact (nodeEnv : Option String) :
    (∀ k : String, severityOf nodeEnv k = some "error" ↔
        k ∈ [ "vue/html-self-closing", "@typescript-eslint/no-unused-vars",
              "prefer-const", "no-var", "@stylistic/operator-linebreak" ]
          ∨ (nodeEnv = some "production" ∧ k = "no-debugger")) ∧
      keysWithSeverity "error" (rules nodeEnv)
        = (if nodeEnv = some "production" then
            [ "vue/html-self-closing", "@typescript-eslint/no-unused-vars",
              "no-debugger", "prefer-const", "no-var", "@stylistic/operator-linebreak" ]
          else
            [ "vue/html-self-closing", "@typescript-eslint/no-unused-vars",
              "prefer-const", "no-var", "@stylistic/operator-linebreak" ]) ∧
      severityOf nodeEnv "vue/no-v-html" = some "warn" ∧
      severityOf nodeEnv "@typescript-eslint/no-explicit-any" = some "warn" := by
  by_cases h : nodeEnv = some "production"
  · subst h
    have hk : keysWithSeverity "error" (rules (some "production"))
        = [ "vue/html-self-closing", "@typescript-eslint/no-unused-vars",
            "no-debugger", "prefer-const", "no-var", "@stylistic/operator-linebreak" ] := by
      decide
    refine ⟨fun k => ?_, ?_, rfl, rfl⟩
    · rw [severityOf_eq_some_iff, hk]
      simp only [List.mem_cons, List.mem_singleton, List.not_mem_nil, or_false, true_and]
      tauto
    · rw [hk]; simp
  · have hk : keysWithSeverity "error" (rules none)
        = [ "vue/html-self-closing", "@typescript-eslint/no-unused-vars",
            "prefer-const", "no-var", "@stylistic/operator-linebreak" ] := by
      decide
    refine ⟨fun k => ?_, ?_, ?_, ?_⟩
    · rw [severityOf_eq_some_iff, rules_of_ne h, hk]
      simp only [h, false_and, or_false]
    · rw [rules_of_ne h, hk]; simp [h]
    · rw [severityOf, rules_of_ne h]; rfl
    · rw [severityOf, rules_of_ne h]; rfl

/-- C6: the rules whose severity is `off` are exactly
`vue/multi-word-component-names`, `vue/require-default-prop`,
`vue/no-multiple-template-root` and
`@typescript-eslint/explicit-module-boundary-types` when NODE_ENV is
`production`, and those plus `no-console` for every other value; the four named
rules are `off` for every value of NODE_ENV. -/
theorem off_rules_exact (nodeEnv : Option String) :
    (∀ k : String, severityOf nodeEnv k = some "off" ↔
        k ∈ [ "vue/multi-word-component-names", "vue/require-default-prop",
              "vue/no-multiple-template-root",
              "@typescript-eslint/explicit-module-boundary-types" ]
          ∨ (nodeEnv ≠ some "production" ∧ k = "no-console")) ∧
      keysWithSeverity "off" (rules nodeEnv)
        = (if nodeEnv = some "production" then
            [ "vue/multi-word-component-names", "vue/require-default-prop",
              "vue/no-multiple-template-root",
              "@typescript-eslint/explicit-module-boundary-types" ]
          else
            [ "vue/multi-word-component-names", "vue/require-default-prop",
              "vue/no-multiple-template-root",
              "@typescript-eslint/explicit-module-boundary-types", "no-console" ]) ∧
      getProp "vue/multi-word-component-names" (rules nodeEnv) = some (.str "off") ∧
      getProp "vue/require-default-prop" (rules nodeEnv) = some (.str "off") ∧
      getProp "vue/no-multiple-template-root" (rules nodeEnv) = some (.str "off") ∧
      getProp "@typescript-eslint/explicit-module-boundary-types" (rules nodeEnv)
        = some (.str "off") := by
  by_cases h : nodeEnv = some "production"
  · subst h
    have hk : keysWithSeverity "off" (rules (some "production"))
        = [ "vue/multi-word-component-names", "vue/require-default-prop",
            "vue/no-multiple-template-root",
            "@typescript-eslint/explicit-module-boundary-types" ] := by
      decide
    refine ⟨fun k => ?_, ?_, rfl, rfl, rfl, rfl⟩
    · rw [severityOf_eq_some_iff, hk]
      simp
    · rw [hk]; simp
  · have hk : keysWithSeverity "off" (rules none)
        = [ "vue/multi-word-component-names", "vue/require-default-prop",
            "vue/no-multiple-template-root",
            "@typescript-eslint/explicit-module-boundary-types", "no-console" ] := by
      decide
    rw [rules_of_ne h]
    refine ⟨fun k => ?_, ?_, rfl, rfl, rfl, rfl⟩
    · rw [severityOf_eq_some_iff, rules_of_ne h, hk]
      simp only [List.mem_cons, List.mem_singleton, List.not_mem_nil, or_false, ne_eq, h,
        not_false_eq_true, true_and]
      tauto
    · rw [hk]; simp [h]

/-- C7: for every value of NODE_ENV the entry of
`@typescript-eslint/no-unused-vars` is a tuple of severity `error` and one
options record whose `argsIgnorePattern` and `varsIgnorePattern` are both `^_`
and which has no other key. -/
theorem no_unused_vars_entry (nodeEnv : Option String) :
    ∃ (entry : JsValue) (opts : List (String × JsValue)),
      getProp "@typescript-eslint/no-unused-vars" (rules nodeEnv) = some entry ∧
      isTuple entry = true ∧
      entrySeverity entry = some "error" ∧
      entryOptions entry = [.obj opts] ∧
      getProp "argsIgnorePattern" opts = some (.str "^_") ∧
      getProp "varsIgnorePattern" opts = some (.str "^_") ∧
      keys opts = ["argsIgnorePattern", "varsIgnorePattern"] := by
  refine ⟨.arr [.str "error", .obj [("argsIgnorePattern", .str "^_"),
    ("varsIgnorePattern", .str "^_")]], _, ?_, rfl, rfl, rfl, rfl, rfl, rfl⟩
  by_cases h : nodeEnv = some "production"
  · subst h; rfl
  · rw [rules_of_ne h]; rfl

/-- C8: for every value of NODE_ENV the entry of `vue/html-self-closing` is a
tuple of severity `error` and one options record that sets `always` for each of
`html.void`, `html.normal`, `html.component`, `svg` and `math`; the record has
no other category, so none is `never` or `any`. -/
theorem html_self_closing_entry (nodeEnv : Option String) :
    ∃ (entry : JsValue) (opts html : List (String × JsValue)),
      getProp "vue/html-self-closing" (rules nodeEnv) = some entry ∧
      isTuple entry = true ∧
      entrySeverity entry = some "error" ∧
      entryOptions entry = [.obj opts] ∧
      selfClosingCategories.map (fun path => (getPath path (.obj opts)).bind JsValue.asString?)
        = [some "always", some "always", some "always", some "always", some "always"] ∧
      keys opts = ["html", "svg", "math"] ∧
      getProp "html" opts = some (.obj html) ∧
      keys html = ["void", "normal", "component"] := by
  refine ⟨.arr [.str "error", .obj [("html", .obj [("void", .str "always"),
    ("normal", .str "always"), ("component", .str "always")]), ("svg", .str "always"),
    ("math", .str "always")]], _, _, ?_, rfl, rfl, rfl, rfl, rfl, rfl, rfl⟩
  by_cases h : nodeEnv = some "production"
  · subst h; rfl
  · rw [rules_of_ne h]; rfl

/-- C9: for any two values of NODE_ENV the two configurations have the same
ignore list and the same entry for every rule key other than `no-console` and
`no-debugger`; when the two values agree on being `production` the
configurations are identical; and the entries of `no-console` and `no-debugger`
do differ between `production` and an unset NODE_ENV. -/
theorem env_dependence (e1 e2 : Option String) :
    ignoresOf (configArgs e1) = ignoresOf (configArgs e2) ∧
      (∀ k : String, k ≠ "no-console" → k ≠ "no-debugger" →
        getProp k (rules e1) = getProp k (rules e2)) ∧
      ((e1 = some "production" ↔ e2 = some "production") →
        rules e1 = rules e2 ∧ configArgs e1 = configArgs e2 ∧
        ∀ (α : Type) (withNuxt : List JsValue → α),
          defaultExport withNuxt e1 = defaultExport withNuxt e2) ∧
      severityOf (some "production") "no-console" ≠ severityOf none "no-console" ∧
      severityOf (some "production") "no-debugger" ≠ severityOf none "no-debugger" := by
  have hsame : ∀ a b : Option String,
      (a = some "production" ↔ b = some "production") → rules a = rules b := by
    intro a b hab
    by_cases ha : a = some "production"
    · rw [ha, hab.1 ha]
    · rw [rules_of_ne ha, rules_of_ne (fun hb => ha (hab.2 hb))]
  have hdiff : ∀ k : String, k ≠ "no-console" → k ≠ "no-debugger" →
      getProp k (rules (some "production")) = getProp k (rules none) := by
    intro k h1 h2
    have h1' : ¬ "no-console" = k := fun e => h1 e.symm
    have h2' : ¬ "no-debugger" = k := fun e => h2 e.symm
    simp [rules, getProp, h1', h2']
  refine ⟨rfl, ?_, ?_, by decide, by decide⟩
  · intro k h1 h2
    by_cases ha : e1 = some "production" <;> by_cases hb : e2 = some "production"
    · rw [ha, hb]
    · rw [ha, rules_of_ne hb]; exact hdiff k h1 h2
    · rw [hb, rules_of_ne ha]; exact (hdiff k h1 h2).symm
    · rw [rules_of_ne ha, rules_of_ne hb]
  · intro hab
    have hr := hsame e1 e2 hab
    refine ⟨hr, ?_, ?_⟩
    · simp only [configArgs, hr]
    · intro α withNuxt
      simp only [defaultExport, configArgs, hr]

/-- Witness for C9: `development` and an unset NODE_ENV, at the key `no-var`. -/
theorem env_dependence_witness :
    getProp "no-var" (rules (some "development")) = getProp "no-var" (rules none) ∧
      configArgs (some "development") = configArgs none :=
  ⟨(env_dependence (some "development") none).2.1 "no-var" (by decide) (by decide),
   ((env_dependence (some "development") none).2.2.1 (by decide)).2.1⟩

/-- C10: for every value of NODE_ENV the rule keys of the table are pairwise
distinct and are exactly the 13 option keys of the specification's table. -/
theorem rule_keys_exact (nodeEnv : Option String) :
    keys (rules nodeEnv) = specOptionKeys ∧
      (keys (rules nodeEnv)).Nodup ∧
      (keys (rules nodeEnv)).length = 13 ∧
      (∀ k : String, (getProp k (rules nodeEnv)).isSome = true ↔ k ∈ specOptionKeys) ∧
      specOptionKeys
        = [ "vue/multi-word-component-names", "vue/no-v-html", "vue/require-default-prop",
            "vue/no-multiple-template-root", "vue/html-self-closing",
            "@typescript-eslint/no-unused-vars", "@typescript-eslint/no-explicit-any",
            "@typescript-eslint/explicit-module-boundary-types", "no-console",
            "no-debugger", "prefer-const", "no-var", "@stylistic/operator-linebreak" ] := by
  have hnd : (keys (rules nodeEnv)).Nodup := by
    rw [keys_rules]; exact specOptionKeys_nodup
  refine ⟨rfl, hnd, rfl, fun k => ?_, rfl⟩
  rw [← keys_rules nodeEnv]
  constructor
  · intro h
    by_contra hk
    rw [getProp_eq_none_of_not_mem hk] at h
    simp at h
  · intro h
    obtain ⟨⟨k', v⟩, hm, rfl⟩ := List.mem_map.1 h
    rw [getProp_of_mem hnd hm]
    rfl

end EslintConfig
